import Mathlib

/-!
Shallow embedding of the batch metadata enrichment engine of Local_Library_V2:
app/services/metadata_scoring.py, app/config.py, app/services/metadata_jobs.py
and app/routes/batch_actions.py. Python floats are modeled as rationals,
SQLite rows as structures, timestamps as presence flags (Option Unit), raised
exceptions as Except values carrying the message string.
-/

namespace LocalLibrary

/-- Python str.strip(): drop leading and trailing whitespace. -/
def pyStrip (s : String) : String :=
  String.mk (((s.data.dropWhile Char.isWhitespace).reverse.dropWhile Char.isWhitespace).reverse)

/-- Python str.lower() (ASCII case folding, as Char.toLower). -/
def pyLower (s : String) : String :=
  String.mk (s.data.map Char.toLower)

/-- Python str.split() with no separator: split on whitespace runs, dropping
empty parts. The helper splits at every whitespace character (keeping empty
chunks); the wrapper filters the empties, which is exactly the no-separator
behavior. -/
def splitChunks (sep : Char → Bool) : List Char → List Char → List (List Char)
  | [], acc => [acc.reverse]
  | c :: rest, acc =>
    if sep c then acc.reverse :: splitChunks sep rest []
    else splitChunks sep rest (c :: acc)

/-- Split a string at every character satisfying sep (Python str.split(sep)
semantics for a one-character separator, empty chunks kept). -/
def pySplitOn (sep : Char → Bool) (s : String) : List String :=
  (splitChunks sep s.data []).map String.mk

/-- Python str.split() with no separator. -/
def pySplitWs (s : String) : List String :=
  (pySplitOn Char.isWhitespace s).filter (fun p => p ≠ "")

/-- Python str.replace(pat, repl) on character lists: replace non-overlapping
occurrences left to right. (For the empty pattern Python would interleave
repl everywhere; the sources only ever replace non-empty patterns, and this
model leaves the list unchanged in that unused case.) -/
def listReplace (pat repl : List Char) : Nat → List Char → List Char
  | _, [] => []
  | 0, l => l
  | fuel + 1, c :: rest =>
    if pat ≠ [] ∧ List.isPrefixOf pat (c :: rest) then
      repl ++ listReplace pat repl fuel (List.drop pat.length (c :: rest))
    else c :: listReplace pat repl fuel rest

/-- Python str.replace(pat, repl). The fuel equals the subject length, which
bounds the number of recursion steps (each step consumes at least one
character of the subject). -/
def pyReplace (s pat repl : String) : String :=
  String.mk (listReplace pat.data repl.data s.data.length s.data)

/-- Python str.startswith(p). -/
def pyStartsWith (s p : String) : Bool :=
  List.isPrefixOf p.data s.data

/-- TARGET_DESC_LEN from app/services/metadata_scoring.py. -/
def TARGET_DESC_LEN : ℚ := 800

/-- The tokenizer of app/services/metadata_scoring.py (source name carries a
leading underscore). Python str.split() splits on whitespace runs and drops
empty parts; the comprehension collects them into a set. A falsy input (None
or the empty string) yields the empty set. -/
def tokenize (value : Option String) : Finset String :=
  (pySplitWs (value.getD "")).toFinset

/-- author_similarity from app/services/metadata_scoring.py. The author
normalizer (app/services/normalization.py, a collaborator imported by the
scoring module) is passed as a parameter. -/
def author_similarity (normalize_author : Option String → Option String)
    (query candidate : Option String) : ℚ :=
  let query_tokens := tokenize (normalize_author query)
  let cand_tokens := tokenize (normalize_author candidate)
  if query_tokens = ∅ ∨ cand_tokens = ∅ then 0
  else ((query_tokens ∩ cand_tokens).card : ℚ) / ((query_tokens ∪ cand_tokens).card : ℚ)

/-- title_token_overlap from app/services/metadata_scoring.py; asymmetric:
the denominator is the query token count. -/
def title_token_overlap (normalize_title : Option String → Option String)
    (query candidate : Option String) : ℚ :=
  let query_tokens := tokenize (normalize_title query)
  let cand_tokens := tokenize (normalize_title candidate)
  if query_tokens = ∅ ∨ cand_tokens = ∅ then 0
  else ((query_tokens ∩ cand_tokens).card : ℚ) / (query_tokens.card : ℚ)

/-- desc_score from app/services/metadata_scoring.py: a falsy description
(None or empty) scores 0, otherwise min(len/800, 1.0). -/
def desc_score (description : Option String) : ℚ :=
  match description with
  | none => 0
  | some d => if d = "" then 0 else min ((d.length : ℚ) / TARGET_DESC_LEN) 1

/-- confidence_score from app/services/metadata_scoring.py: returns
(overall, descScore, identityScore). Both normalizers are parameters. -/
def confidence_score (normalize_title normalize_author : Option String → Option String)
    (query_title query_author candidate_title candidate_author description : Option String) :
    ℚ × ℚ × ℚ :=
  let author_score := author_similarity normalize_author query_author candidate_author
  let title_score := title_token_overlap normalize_title query_title candidate_title
  let identity_score := (author_score + title_score) / 2
  let description_score := desc_score description
  (identity_score * description_score, description_score, identity_score)

lemma tokenize_card_pos {v : Option String} (h : tokenize v ≠ ∅) :
    0 < (tokenize v).card :=
  Finset.card_pos.mpr (Finset.nonempty_iff_ne_empty.mpr h)

lemma author_similarity_mem_unit (normalize_author : Option String → Option String)
    (query candidate : Option String) :
    0 ≤ author_similarity normalize_author query candidate ∧
      author_similarity normalize_author query candidate ≤ 1 := by
  unfold author_similarity
  by_cases h : tokenize (normalize_author query) = ∅ ∨ tokenize (normalize_author candidate) = ∅
  · simp [h]
  · push_neg at h
    simp only [h.1, h.2, or_self, if_false]
    have hpos : 0 < ((tokenize (normalize_author query) ∪ tokenize (normalize_author candidate)).card : ℚ) := by
      have := tokenize_card_pos h.1
      have hsub : (tokenize (normalize_author query)).card ≤
          (tokenize (normalize_author query) ∪ tokenize (normalize_author candidate)).card :=
        Finset.card_le_card Finset.subset_union_left
      exact_mod_cast lt_of_lt_of_le this hsub
    constructor
    · positivity
    · rw [div_le_one hpos]
      exact_mod_cast Finset.card_le_card (Finset.inter_subset_union)

lemma title_token_overlap_mem_unit (normalize_title : Option String → Option String)
    (query candidate : Option String) :
    0 ≤ title_token_overlap normalize_title query candidate ∧
      title_token_overlap normalize_title query candidate ≤ 1 := by
  unfold title_token_overlap
  by_cases h : tokenize (normalize_title query) = ∅ ∨ tokenize (normalize_title candidate) = ∅
  · simp [h]
  · push_neg at h
    simp only [h.1, h.2, or_self, if_false]
    have hpos : 0 < ((tokenize (normalize_title query)).card : ℚ) := by
      exact_mod_cast tokenize_card_pos h.1
    constructor
    · positivity
    · rw [div_le_one hpos]
      exact_mod_cast Finset.card_le_card Finset.inter_subset_left

lemma desc_score_mem_unit (description : Option String) :
    0 ≤ desc_score description ∧ desc_score description ≤ 1 := by
  unfold desc_score
  match description with
  | none => norm_num
  | some d =>
    by_cases h : d = ""
    · simp [h]
    · simp only [h, if_false]
      constructor
      · have : (0 : ℚ) ≤ (d.length : ℚ) / TARGET_DESC_LEN := by
          unfold TARGET_DESC_LEN; positivity
        exact le_min this (by norm_num)
      · exact min_le_right _ _

/-- C2: the scorer returns (overall, descScore, identityScore) with
identityScore the average of the author Jaccard index and the asymmetric
title overlap over whitespace-token sets of the normalized strings, descScore
min(len/800, 1) with falsy description scoring 0, overall the product, all
three in [0,1], and degenerate (empty) token sets scoring 0 with the used
denominators provably nonzero. -/
theorem confidence_score_spec
    (normalize_title normalize_author : Option String → Option String)
    (query_title query_author candidate_title candidate_author description : Option String) :
    (confidence_score normalize_title normalize_author query_title query_author
        candidate_title candidate_author description =
      ((author_similarity normalize_author query_author candidate_author +
          title_token_overlap normalize_title query_title candidate_title) / 2 *
            desc_score description,
        desc_score description,
        (author_similarity normalize_author query_author candidate_author +
          title_token_overlap normalize_title query_title candidate_title) / 2)) ∧
    (∀ qa ca, qa = tokenize (normalize_author query_author) →
      ca = tokenize (normalize_author candidate_author) →
      qa ≠ ∅ → ca ≠ ∅ →
      author_similarity normalize_author query_author candidate_author =
        ((qa ∩ ca).card : ℚ) / ((qa ∪ ca).card : ℚ) ∧ ((qa ∪ ca).card : ℚ) ≠ 0) ∧
    (∀ qt ct, qt = tokenize (normalize_title query_title) →
      ct = tokenize (normalize_title candidate_title) →
      qt ≠ ∅ → ct ≠ ∅ →
      title_token_overlap normalize_title query_title candidate_title =
        ((qt ∩ ct).card : ℚ) / (qt.card : ℚ) ∧ (qt.card : ℚ) ≠ 0) ∧
    (tokenize (normalize_author query_author) = ∅ ∨
        tokenize (normalize_author candidate_author) = ∅ →
      author_similarity normalize_author query_author candidate_author = 0) ∧
    (tokenize (normalize_title query_title) = ∅ ∨
        tokenize (normalize_title candidate_title) = ∅ →
      title_token_overlap normalize_title query_title candidate_title = 0) ∧
    (description = none ∨ description = some "" → desc_score description = 0) ∧
    (∀ d, description = some d → d ≠ "" →
      desc_score description = min ((d.length : ℚ) / 800) 1) ∧
    (∀ overall dsc idsc,
      confidence_score normalize_title normalize_author query_title query_author
          candidate_title candidate_author description = (overall, dsc, idsc) →
      (0 ≤ overall ∧ overall ≤ 1) ∧ (0 ≤ dsc ∧ dsc ≤ 1) ∧ (0 ≤ idsc ∧ idsc ≤ 1)) := by
  have ha := author_similarity_mem_unit normalize_author query_author candidate_author
  have ht := title_token_overlap_mem_unit normalize_title query_title candidate_title
  have hd := desc_score_mem_unit description
  refine ⟨rfl, ?_, ?_, ?_, ?_, ?_, ?_, ?_⟩
  · rintro qa ca rfl rfl hqa hca
    have hpos : 0 < ((tokenize (normalize_author query_author) ∪
        tokenize (normalize_author candidate_author)).card : ℚ) := by
      have hq := tokenize_card_pos hqa
      have hsub : (tokenize (normalize_author query_author)).card ≤
          (tokenize (normalize_author query_author) ∪
            tokenize (normalize_author candidate_author)).card :=
        Finset.card_le_card Finset.subset_union_left
      exact_mod_cast lt_of_lt_of_le hq hsub
    refine ⟨?_, ne_of_gt hpos⟩
    unfold author_similarity
    simp [hqa, hca]
  · rintro qt ct rfl rfl hqt hct
    have hpos : 0 < ((tokenize (normalize_title query_title)).card : ℚ) := by
      exact_mod_cast tokenize_card_pos hqt
    refine ⟨?_, ne_of_gt hpos⟩
    unfold title_token_overlap
    simp [hqt, hct]
  · intro h
    unfold author_similarity
    rcases h with h | h <;> simp [h]
  · intro h
    unfold title_token_overlap
    rcases h with h | h <;> simp [h]
  · rintro (rfl | rfl) <;> simp [desc_score]
  · rintro d rfl hd'
    simp [desc_score, hd', TARGET_DESC_LEN]
  · intro overall dsc idsc heq
    have h1 : overall = (author_similarity normalize_author query_author candidate_author +
        title_token_overlap normalize_title query_title candidate_title) / 2 *
          desc_score description := by
      have := congrArg Prod.fst heq
      simpa [confidence_score] using this.symm
    have h2 : dsc = desc_score description := by
      have := congrArg (fun p => p.2.1) heq
      simpa [confidence_score] using this.symm
    have h3 : idsc = (author_similarity normalize_author query_author candidate_author +
        title_token_overlap normalize_title query_title candidate_title) / 2 := by
      have := congrArg (fun p => p.2.2) heq
      simpa [confidence_score] using this.symm
    subst h1 h2 h3
    refine ⟨⟨?_, ?_⟩, hd, ⟨?_, ?_⟩⟩
    · have : 0 ≤ (author_similarity normalize_author query_author candidate_author +
          title_token_overlap normalize_title query_title candidate_title) / 2 := by
        linarith [ha.1, ht.1]
      exact mul_nonneg this hd.1
    · have hidup : (author_similarity normalize_author query_author candidate_author +
          title_token_overlap normalize_title query_title candidate_title) / 2 ≤ 1 := by
        linarith [ha.2, ht.2]
      have hidlo : 0 ≤ (author_similarity normalize_author query_author candidate_author +
          title_token_overlap normalize_title query_title candidate_title) / 2 := by
        linarith [ha.1, ht.1]
      calc (author_similarity normalize_author query_author candidate_author +
          title_token_overlap normalize_title query_title candidate_title) / 2 *
            desc_score description ≤ 1 * 1 := by
            exact mul_le_one₀ hidup hd.1 hd.2 |>.trans (by norm_num)
        _ = 1 := by norm_num
    · linarith [ha.1, ht.1]
    · linarith [ha.2, ht.2]

/-- The candidate dict built by _normalize_search_results in
app/services/metadata_jobs.py. -/
structure Candidate where
  result_id : String
  title : Option String
  author : Option String
  categories : List String
  description : Option String
  source : String
  overall_confidence : ℚ
  identity_score : ℚ
  desc_score : ℚ
deriving Repr, DecidableEq

/-- The scan loop of _select_best_result in app/services/metadata_jobs.py:
strict comparison, so the first candidate attaining the running maximum is
kept. (The isinstance fallback to -1.0 for non-numeric scores cannot fire in
this embedding: _normalize_search_results always stores a rational.) -/
def select_best_go (best : Candidate) (best_score : ℚ) : List Candidate → Candidate
  | [] => best
  | result :: rest =>
    if best_score < result.overall_confidence
    then select_best_go result result.overall_confidence rest
    else select_best_go best best_score rest

/-- _select_best_result from app/services/metadata_jobs.py. -/
def select_best_result : List Candidate → Option Candidate
  | [] => none
  | first :: rest => some (select_best_go first first.overall_confidence rest)

lemma select_best_go_spec (results : List Candidate) : ∀ best : Candidate,
    (select_best_go best best.overall_confidence results = best ∧
      ∀ x ∈ results, x.overall_confidence ≤ best.overall_confidence) ∨
    (∃ pre post, results = pre ++ select_best_go best best.overall_confidence results :: post ∧
      best.overall_confidence < (select_best_go best best.overall_confidence results).overall_confidence ∧
      (∀ x ∈ pre, x.overall_confidence <
        (select_best_go best best.overall_confidence results).overall_confidence) ∧
      (∀ x ∈ post, x.overall_confidence ≤
        (select_best_go best best.overall_confidence results).overall_confidence)) := by
  induction results with
  | nil => intro best; left; exact ⟨rfl, by simp⟩
  | cons x xs ih =>
    intro best
    by_cases h : best.overall_confidence < x.overall_confidence
    · have hgo : select_best_go best best.overall_confidence (x :: xs) =
          select_best_go x x.overall_confidence xs := by
        simp [select_best_go, h]
      rw [hgo]
      rcases ih x with ⟨heq, hle⟩ | ⟨pre, post, hsplit, hlt, hpre, hpost⟩
      · right
        refine ⟨[], xs, by simp [heq], by rw [heq]; exact h, by simp, ?_⟩
        intro y hy; rw [heq]; exact hle y hy
      · right
        refine ⟨x :: pre, post,
          (congrArg (List.cons x) hsplit).trans (List.cons_append _ _ _).symm,
          lt_trans h hlt, ?_, hpost⟩
        intro y hy
        rcases List.mem_cons.mp hy with rfl | hy'
        · exact hlt
        · exact hpre y hy'
    · have hgo : select_best_go best best.overall_confidence (x :: xs) =
          select_best_go best best.overall_confidence xs := by
        simp [select_best_go, h]
      rw [hgo]
      rcases ih best with ⟨heq, hle⟩ | ⟨pre, post, hsplit, hlt, hpre, hpost⟩
      · left
        refine ⟨heq, ?_⟩
        intro y hy
        rcases List.mem_cons.mp hy with rfl | hy'
        · exact le_of_not_lt h
        · exact hle y hy'
      · right
        refine ⟨x :: pre, post,
          (congrArg (List.cons x) hsplit).trans (List.cons_append _ _ _).symm,
          hlt, ?_, hpost⟩
        intro y hy
        rcases List.mem_cons.mp hy with rfl | hy'
        · exact lt_of_le_of_lt (le_of_not_lt h) hlt
        · exact hpre y hy'

/-- C4: on every non-empty candidate list, _select_best_result returns the
candidate with the maximal overall_confidence, and among candidates sharing
the maximum it returns the first-encountered one: the input list splits as
pre ++ selected :: post with every pre-candidate strictly below the selected
score, and every candidate at most the selected score. -/
theorem select_best_result_first_max (first : Candidate) (rest : List Candidate) :
    ∃ b pre post,
      select_best_result (first :: rest) = some b ∧
      first :: rest = pre ++ b :: post ∧
      (∀ x ∈ pre, x.overall_confidence < b.overall_confidence) ∧
      (∀ x ∈ first :: rest, x.overall_confidence ≤ b.overall_confidence) := by
  rcases select_best_go_spec rest first with ⟨heq, hle⟩ | ⟨pre, post, hsplit, hlt, hpre, hpost⟩
  · refine ⟨select_best_go first first.overall_confidence rest, [], rest, rfl, by simp [heq], by simp, ?_⟩
    intro x hx
    rcases List.mem_cons.mp hx with rfl | hx'
    · rw [heq]
    · rw [heq]; exact hle x hx'
  · refine ⟨select_best_go first first.overall_confidence rest, first :: pre, post, rfl,
      (congrArg (List.cons first) hsplit).trans (List.cons_append _ _ _).symm, ?_, ?_⟩
    · intro x hx
      rcases List.mem_cons.mp hx with rfl | hx'
      · exact hlt
      · exact hpre x hx'
    · intro x hx
      rcases List.mem_cons.mp hx with rfl | hx'
      · exact le_of_lt hlt
      · rw [hsplit] at hx'
        rcases List.mem_append.mp hx' with hx'' | hx''
        · exact le_of_lt (hpre x hx'')
        · rcases List.mem_cons.mp hx'' with rfl | hx'''
          · exact le_refl _
          · exact hpost x hx'''

/-- DEFAULT_INFERENCE_ORDER from app/config.py. -/
def DEFAULT_INFERENCE_ORDER : List String := ["description_clean", "tag_inference"]

/-- get_inference_order from app/config.py. The JSON file read is modeled by
its relevant content: the configured value of the inference_order key, with
none standing for a missing key, a falsy value, or a non-list value (all of
which the source replaces by the default). The allowed set in the source is
exactly the two-element set below: entries are stripped and kept only when
the stripped text is a member; if nothing survives, the default is used. -/
def get_inference_order (configured : Option (List String)) : List String :=
  match configured with
  | none => DEFAULT_INFERENCE_ORDER
  | some entries =>
    if entries = [] then DEFAULT_INFERENCE_ORDER
    else
      let allowed : List String := ["description_clean", "tag_inference"]
      let cleaned := (entries.map pyStrip).filter (fun entry => allowed.contains entry)
      if cleaned = [] then DEFAULT_INFERENCE_ORDER else cleaned

/-- TagCandidate from app/providers/base.py. -/
structure TagCandidate where
  tag_text : String
deriving Repr, DecidableEq

/-- The volumeInfo dict navigated by _extract_volume_info and
_normalize_search_results in app/services/metadata_jobs.py; the isinstance
checks on the raw JSON are modeled by the Option fields. -/
structure VolumeInfo where
  categories : Option (List String)
  description : Option String
deriving Repr, DecidableEq

/-- SearchResult as consumed by app/services/metadata_jobs.py (result_id,
title, author, raw_payload). raw_payload is modeled as its volumeInfo value,
none when absent or not a dict. -/
structure SearchResult where
  result_id : String
  title : Option String
  author : Option String
  raw_payload : Option VolumeInfo
deriving Repr, DecidableEq

/-- The value stored into tag_mapping by _run_ai_cleanup: the provider's
tag_inference_field returns an object that _build_tags_from_mapping treats
as either a list or a scalar rendered by str(). -/
inductive TagValue where
  | scalar (s : String)
  | values (items : List String)
deriving Repr, DecidableEq

/-- The duck-typed AI/search provider (app/metadataProvider.py and
app/providers/llm_provider.py) as seen by the job pipeline. Each fallible
method returns Except, the error being the raised exception's message. -/
structure Provider where
  search : String → String → Except String (List SearchResult)
  get_tags : String → Except String (List TagCandidate)
  get_tag_inference_fields : List (String × String)
  clean_description : String → Except String (String × Option String)
  tag_inference_split : String → Except String (List String × Option String)
  tag_inference_field : String → String → String → Except String (TagValue × Option String)

/-- Python dict insertion with insertion-order semantics: updating an
existing key keeps its position, a new key is appended. Used for
tag_prompt_lookup and tag_mapping in _run_ai_cleanup. -/
def dictInsert {V : Type} (m : List (String × V)) (k : String) (v : V) : List (String × V) :=
  if m.any (fun p => p.1 = k) then
    m.map (fun p => if p.1 = k then (k, v) else p)
  else m ++ [(k, v)]

/-- Python dict.get. -/
def dictGet {V : Type} (m : List (String × V)) (k : String) : Option V :=
  (m.find? (fun p => p.1 = k)).map (fun p => p.2)

/-- The dict comprehension building tag_prompt_lookup in _run_ai_cleanup. -/
def tag_prompt_lookup_of (fields : List (String × String)) : List (String × String) :=
  fields.foldl (fun m fp => dictInsert m fp.1 fp.2) []

/-- resolve_field from _run_ai_cleanup in app/services/metadata_jobs.py:
strip the tag_inference_ text and underscores, lowercase, and return the
first key of tag_prompt_lookup matching under the same folding. -/
def resolve_field (lookup : List (String × String)) (step : String) : Option String :=
  let field_key := pyLower (pyReplace (pyReplace step "tag_inference_" "") "_" "")
  ((lookup.map Prod.fst).find? (fun candidate => pyLower (pyReplace candidate "_" "") = field_key))

/-- _build_tags_from_mapping from app/services/metadata_jobs.py. -/
def build_tags_from_mapping (tag_mapping : List (String × TagValue)) : List String :=
  tag_mapping.foldl
    (fun tags kv =>
      let key_text := pyStrip kv.1
      if key_text = "" then tags
      else
        match kv.2 with
        | TagValue.values items =>
          tags ++ items.filterMap (fun item =>
            let value_text := pyStrip item
            if value_text = "" then none else some (key_text ++ ":" ++ value_text))
        | TagValue.scalar s =>
          let value_text := pyStrip s
          if value_text = "" then tags else tags ++ [key_text ++ ":" ++ value_text])
    []

/-- The mutable state of the step loop in _run_ai_cleanup. -/
structure CleanupState where
  cleaned : String
  tags : List String
  tag_mapping : List (String × TagValue)
deriving Repr, DecidableEq

/-- One iteration of the step loop of _run_ai_cleanup. description_clean
feeds the current working text to the provider and keeps the result only
when truthy; tag_inference and the per-field branch always re-read the
original raw description. A provider error propagates (aborting the record). -/
def run_ai_cleanup_step (provider : Provider) (raw_description : String)
    (lookup : List (String × String)) (st : CleanupState) (step : String) :
    Except String CleanupState :=
  if step = "description_clean" then
    match provider.clean_description st.cleaned with
    | Except.error e => Except.error e
    | Except.ok (cleaned_result, _) =>
      Except.ok { st with cleaned := if cleaned_result ≠ "" then cleaned_result else st.cleaned }
  else if step = "tag_inference" then
    match provider.tag_inference_split raw_description with
    | Except.error e => Except.error e
    | Except.ok (tags, _) => Except.ok { st with tags := tags }
  else if pyStartsWith step "tag_inference_" then
    match resolve_field lookup step with
    | none => Except.ok st
    | some field =>
      match dictGet lookup field with
      | none => Except.ok st
      | some prompt_name =>
        if prompt_name = "" then Except.ok st
        else
          match provider.tag_inference_field raw_description field prompt_name with
          | Except.error e => Except.error e
          | Except.ok (value, _) =>
            let tag_mapping := dictInsert st.tag_mapping field value
            Except.ok { st with
              tag_mapping := tag_mapping,
              tags := build_tags_from_mapping tag_mapping }
  else Except.ok st

/-- The step loop of _run_ai_cleanup over the configured order. -/
def run_ai_cleanup_loop (provider : Provider) (raw_description : String)
    (lookup : List (String × String)) : CleanupState → List String → Except String CleanupState
  | st, [] => Except.ok st
  | st, step :: rest =>
    match run_ai_cleanup_step provider raw_description lookup st step with
    | Except.error e => Except.error e
    | Except.ok st1 => run_ai_cleanup_loop provider raw_description lookup st1 rest

/-- _run_ai_cleanup from app/services/metadata_jobs.py. The inference-order
configuration read by get_inference_order() is threaded as a parameter. -/
def run_ai_cleanup (provider : Provider) (configured : Option (List String))
    (description : String) : Except String (String × List String) :=
  let raw_description := description
  let lookup := tag_prompt_lookup_of provider.get_tag_inference_fields
  match run_ai_cleanup_loop provider raw_description lookup
    { cleaned := raw_description, tags := [], tag_mapping := [] }
    (get_inference_order configured) with
  | Except.error e => Except.error e
  | Except.ok st => Except.ok (st.cleaned, st.tags)

/-- A provider whose Romance field inference succeeds, used to evaluate the
pipeline at the C1 failing configuration. -/
def romanceProvider : Provider where
  search := fun _ _ => Except.ok []
  get_tags := fun _ => Except.ok []
  get_tag_inference_fields := [("Romance", "romance_prompt")]
  clean_description := fun _ => Except.ok ("cleaned text", none)
  tag_inference_split := fun _ => Except.ok ([], none)
  tag_inference_field := fun _ _ _ => Except.ok (TagValue.scalar "slow burn", none)

/-- C1 (code bug evidence): with the configured inference order
["tag_inference_Romance", "description_clean"], get_inference_order drops
the per-field step (its allowed set holds only description_clean and
tag_inference), so the AI cleanup runs description_clean alone and yields no
Romance tag even with a provider whose Romance inference succeeds — although
the step loop in _run_ai_cleanup has a dedicated (unreachable) branch for
tag_inference_ steps that would have produced Romance:slow burn. -/
theorem inference_order_drops_field_steps :
    get_inference_order (some ["tag_inference_Romance", "description_clean"]) =
      ["description_clean"] ∧
    ("tag_inference_Romance" ∈
      get_inference_order (some ["tag_inference_Romance", "description_clean"]) → False) ∧
    run_ai_cleanup romanceProvider (some ["tag_inference_Romance", "description_clean"])
      "raw description" = Except.ok ("cleaned text", []) ∧
    run_ai_cleanup_loop romanceProvider "raw description"
      (tag_prompt_lookup_of romanceProvider.get_tag_inference_fields)
      { cleaned := "raw description", tags := [], tag_mapping := [] }
      ["tag_inference_Romance", "description_clean"] =
      Except.ok ⟨"cleaned text", ["Romance:slow burn"],
        [("Romance", TagValue.scalar "slow burn")]⟩ := by
  refine ⟨by decide, by decide, rfl, rfl⟩

/-- Python `a or b` for an optional string a: b when a is None or empty. -/
def pyOr (a : Option String) (b : String) : String :=
  match a with
  | some s => if s = "" then b else s
  | none => b

/-- Python `a or b` for plain strings. -/
def pyOrS (a b : String) : String := if a = "" then b else a

/-- The per-category split of _prepare_metadata in
app/services/metadata_jobs.py: map > to /, split on /, strip each part,
keep truthy parts. -/
def topicParts (raw : String) : List String :=
  ((pySplitOn (fun c => c = '/') (pyReplace raw ">" "/")).map pyStrip).filter (fun p => p ≠ "")

/-- One topic insertion of _prepare_metadata: the seen set (first component)
holds lowercased keys; first occurrence wins. -/
def addTopic (acc : List String × List String) (part : String) : List String × List String :=
  let key := pyLower ("topic:" ++ part)
  if key ∈ acc.1 then acc else (acc.1 ++ [key], acc.2 ++ ["topic:" ++ part])

/-- The category loop of _prepare_metadata. -/
def prepare_categories (categories : List String) : List String × List String :=
  categories.foldl
    (fun acc raw => if raw = "" then acc else (topicParts raw).foldl addTopic acc)
    ([], [])

/-- One GetTags merge step of _prepare_metadata, sharing the seen set with
the category loop (same case-insensitive first-wins rule). -/
def addTagCandidate (acc : List String × List String) (tag : TagCandidate) :
    List String × List String :=
  let tag_text := pyStrip tag.tag_text
  if tag_text = "" then acc
  else
    let key := pyLower tag_text
    if key ∈ acc.1 then acc else (acc.1 ++ [key], acc.2 ++ [tag_text])

/-- _prepare_metadata from app/services/metadata_jobs.py: returns the
prepared tag list and the draft description. A get_tags exception is
swallowed into an empty candidate list, and get_tags is only consulted for a
truthy result_id. -/
def prepare_metadata (provider : Provider) (result : Candidate) : List String × String :=
  let acc := prepare_categories result.categories
  let acc :=
    if result.result_id ≠ "" then
      (match provider.get_tags result.result_id with
        | Except.error _ => []
        | Except.ok t => t).foldl addTagCandidate acc
    else acc
  (acc.2, pyOr result.description "")

/-- The merge `list(\x7b*base_tags, *ai_tags\x7d)` in _process_book
(app/services/metadata_jobs.py): a Python set union, so duplicates collapse
under exact (case-sensitive) string equality only, and the iteration order
of the resulting list is unspecified hash order. This embedding fixes the
first-seen order; every theorem stated about it uses only membership and
duplicate-freedom, which are order-independent. -/
def merged_tags (base_tags ai_tags : List String) : List String :=
  (base_tags ++ ai_tags).dedup

/-- C5 counterexample: the merge in _process_book is NOT case-insensitive.
Two tags that differ only in case both survive the merge, so no
case-insensitive de-duplication (first occurrence winning) takes place. -/
theorem merged_tags_not_case_insensitive :
    "topic:Fiction" ∈ merged_tags ["topic:Fiction"] ["TOPIC:FICTION"] ∧
    "TOPIC:FICTION" ∈ merged_tags ["topic:Fiction"] ["TOPIC:FICTION"] ∧
    pyLower "topic:Fiction" = pyLower "TOPIC:FICTION" ∧
    ("topic:Fiction" = "TOPIC:FICTION" → False) ∧
    ((merged_tags ["topic:Fiction"] ["TOPIC:FICTION"]).Pairwise
      (fun a b => pyLower a ≠ pyLower b) → False) := by
  refine ⟨by decide, by decide, by decide, by decide, ?_⟩
  intro h
  have : merged_tags ["topic:Fiction"] ["TOPIC:FICTION"] =
      ["topic:Fiction", "TOPIC:FICTION"] := by decide
  rw [this] at h
  rcases List.pairwise_cons.mp h with ⟨h1, _⟩
  exact h1 "TOPIC:FICTION" (by simp) (by decide)

/-- C5 amended: the tag set passed to the apply step is the union of the
prepared tags and the AI-inferred tags de-duplicated under EXACT string
equality (Python set semantics): membership is exactly union membership and
the result has no exact duplicates; case-insensitive collapsing and
first-seen ordering are not guaranteed. -/
theorem merged_tags_spec (base_tags ai_tags : List String) :
    (∀ t, t ∈ merged_tags base_tags ai_tags ↔ t ∈ base_tags ∨ t ∈ ai_tags) ∧
    (merged_tags base_tags ai_tags).Nodup := by
  constructor
  · intro t
    simp [merged_tags]
  · exact List.nodup_dedup _

/-- The catalog mutations performed by _apply_metadata in
app/services/metadata_jobs.py (db.py and db_queries.py helpers). -/
inductive CatalogWrite where
  | remove_non_topic_tags (book_id : Nat)
  | add_tags (book_id : Nat) (tag_ids : List Nat)
  | set_raw_description (book_id : Nat) (text : String)
  | set_description (book_id : Nat) (text : String)
deriving Repr, DecidableEq

/-- Python " ".join(s.split()): collapse internal whitespace. -/
def collapseWs (s : String) : String :=
  String.intercalate " " (pySplitWs s)

/-- _apply_metadata from app/services/metadata_jobs.py, as the ordered list
of catalog mutations it performs. get_or_create_tag is modeled by the
injected resolveTag; a None result is skipped as in the source. -/
def apply_metadata (resolveTag : String → Option Nat) (book_id : Nat)
    (tags : List String) (description : Option String)
    (raw_description : String) (source : String) : List CatalogWrite :=
  let tag_ids := tags.filterMap (fun tag_text =>
    let cleaned := collapseWs tag_text
    if cleaned = "" then none else resolveTag cleaned)
  [CatalogWrite.remove_non_topic_tags book_id, CatalogWrite.add_tags book_id tag_ids]
    ++ (if source = "google_books" ∧ raw_description ≠ "" then
          [CatalogWrite.set_raw_description book_id raw_description] else [])
    ++ (match description with
        | some d => [CatalogWrite.set_description book_id d]
        | none => [])

/-- _extract_volume_info from app/services/metadata_jobs.py. -/
def extract_volume_info (raw_payload : Option VolumeInfo) : VolumeInfo :=
  match raw_payload with
  | some volume => volume
  | none => ⟨none, none⟩

/-- _normalize_search_results from app/services/metadata_jobs.py: score each
raw search result against the query title/author and package it as a
candidate dict. -/
def normalize_search_results (normalize_title normalize_author : Option String → Option String)
    (results : List SearchResult) (title author : String) : List Candidate :=
  results.map (fun result =>
    let volume := extract_volume_info result.raw_payload
    let scores := confidence_score normalize_title normalize_author
      (some title) (some author) result.title result.author volume.description
    { result_id := result.result_id
      title := result.title
      author := result.author
      categories := volume.categories.getD []
      description := volume.description
      source := "google_books"
      overall_confidence := scores.1
      identity_score := scores.2.2
      desc_score := scores.2.1 })

/-- The outcome of _process_book: the returned triple plus the catalog
mutations performed on the way (empty unless the record succeeded). -/
structure ProcessResult where
  ok : Bool
  error_message : Option String
  selected : Option Candidate
  writes : List CatalogWrite
deriving Repr, DecidableEq

/-- _process_book from app/services/metadata_jobs.py. An Except.error is an
exception escaping to the per-record handler of run_metadata_job (e.g. a
provider.search failure); failures of _run_ai_cleanup are caught here and
become an ok=false result. -/
def process_book (normalize_title normalize_author : Option String → Option String)
    (provider : Provider) (configured : Option (List String))
    (resolveTag : String → Option Nat) (book_id : Nat) (title author : String) :
    Except String ProcessResult :=
  match provider.search author title with
  | Except.error e => Except.error e
  | Except.ok results =>
    let normalized := normalize_search_results normalize_title normalize_author results title author
    match select_best_result normalized with
    | none => Except.ok ⟨false, some "No metadata results.", none, []⟩
    | some best =>
      let prepared := prepare_metadata provider best
      let raw_description := pyOrS prepared.2 (pyOr best.description "")
      match run_ai_cleanup provider configured raw_description with
      | Except.error exc =>
        Except.ok ⟨false, some ("AI cleanup failed: " ++ exc), some best, []⟩
      | Except.ok (cleaned_description, ai_tags) =>
        let final_description : Option String :=
          if cleaned_description ≠ "" then some cleaned_description
          else if raw_description ≠ "" then some raw_description
          else none
        let writes := apply_metadata resolveTag book_id (merged_tags prepared.1 ai_tags)
          final_description raw_description (pyOrS best.source "google_books")
        Except.ok ⟨true, none, some best, writes⟩

/-- A catalog row returned by fetch_books_for_metadata
(app/services/db_queries.py): all books, left-joined to their author. -/
structure BookRow where
  id : Nat
  title : Option String
  author : Option String
  normalized_title : Option String
  normalized_author : Option String
deriving Repr, DecidableEq

/-- A metadata_jobs row as read by fetch_metadata_job
(app/services/metadata_jobs.py). Timestamps are modeled as presence flags.
The metadata_jobs table definition itself is not under src/ (init_db in
app/db.py does not create it); Modelled from the spec: the counters are
non-negative integers, so Nat. -/
structure JobState where
  status : String
  total_books : Nat
  processed_books : Nat
  succeeded_books : Nat
  failed_books : Nat
  current_book_id : Option Nat
  last_error : Option String
  created_at : Option Unit
  started_at : Option Unit
  finished_at : Option Unit
  cancelled_at : Option Unit
deriving Repr, DecidableEq

/-- A metadata_job_events insert performed by run_metadata_job, carrying the
payload fields the claims mention (the selected-candidate summary of the
payload is not modeled). -/
structure EventRecord where
  event_type : String
  book_id : Nat
  title : String
  author : String
  error : Option String
  processed : Nat
  succeeded : Nat
  failed : Nat
deriving Repr, DecidableEq

/-- The collaborators and externally observed values of one run_metadata_job
execution: the normalizers, the inference-order configuration, the provider,
tag resolution, the catalog rows listed at start, whether fetch_book_detail
finds each book, and the value _job_is_cancelled observes before starting
record number i (the status row may be flipped concurrently by
cancel_metadata_job; the observation sequence is the model of that). -/
structure RunEnv where
  normalize_title : Option String → Option String
  normalize_author : Option String → Option String
  inference_configured : Option (List String)
  provider : Provider
  resolveTag : String → Option Nat
  rows : List BookRow
  bookExists : Nat → Bool
  cancelledBefore : Nat → Bool

/-- The observable effects of a run: the in-memory job row, every committed
job-row state in commit order (one entry per update_metadata_job call), the
emitted events, the catalog writes, and the book ids assigned to
current_book_id in assignment order. -/
structure RunState where
  job : JobState
  jobLog : List JobState
  events : List EventRecord
  writes : List CatalogWrite
  attempted : List Nat
deriving Repr, DecidableEq

/-- update_metadata_job: apply a field update to the job row and log the
committed state. -/
def updateJob (s : RunState) (f : JobState → JobState) : RunState :=
  let j := f s.job
  { s with job := j, jobLog := s.jobLog ++ [j] }

/-- The outcome handling of one per-record iteration of run_metadata_job:
the try body's event emission and counter commit, given the result of the
guarded _process_book call (Except.error being an exception reaching the
per-record except clause). -/
def run_record_outcome (p sc f book_id : Nat) (raw_title raw_author : String)
    (outcome : Except String ProcessResult) (t : RunState) : RunState × Nat × Nat :=
  match outcome with
  | Except.ok pr =>
    let s2 := { t with writes := t.writes ++ pr.writes }
    if pr.ok then
      let s3 := { s2 with events := s2.events ++
        [⟨"book_completed", book_id, raw_title, raw_author, none, p + 1, sc + 1, f⟩] }
      let s4 := updateJob s3 (fun j => { j with
        processed_books := p + 1, succeeded_books := sc + 1, failed_books := f })
      (s4, sc + 1, f)
    else
      let s3 := updateJob s2 (fun j => { j with last_error := pr.error_message })
      let s4 := { s3 with events := s3.events ++
        [⟨"book_failed", book_id, raw_title, raw_author, pr.error_message, p + 1, sc, f + 1⟩] }
      let s5 := updateJob s4 (fun j => { j with
        processed_books := p + 1, succeeded_books := sc, failed_books := f + 1 })
      (s5, sc, f + 1)
  | Except.error exc =>
    let s2 := updateJob t (fun j => { j with last_error := some exc })
    let s3 := { s2 with events := s2.events ++
      [⟨"book_failed", book_id, raw_title, raw_author, some exc, p + 1, sc, f + 1⟩] }
    let s4 := updateJob s3 (fun j => { j with
      processed_books := p + 1, succeeded_books := sc, failed_books := f + 1 })
    (s4, sc, f + 1)

/-- One iteration body of the per-record loop of run_metadata_job (after the
cancellation check): set current_book_id, guard fetch_book_detail, run
_process_book inside the per-record try, emit the book_completed or
book_failed event, and commit the three counters in one update. Returns the
new run state and the updated succeeded/failed local counters; the processed
local counter always advances to p + 1. -/
def run_record (env : RunEnv) (p sc f : Nat) (row : BookRow) (s : RunState) :
    RunState × Nat × Nat :=
  let book_id := row.id
  let raw_title := pyOr row.title ""
  let raw_author := pyOr row.author ""
  let title := pyOr row.normalized_title raw_title
  let author := pyOr row.normalized_author raw_author
  let s1 := updateJob s (fun j => { j with current_book_id := some book_id })
  let s1 := { s1 with attempted := s1.attempted ++ [book_id] }
  let outcome : Except String ProcessResult :=
    if env.bookExists book_id then
      process_book env.normalize_title env.normalize_author env.provider
        env.inference_configured env.resolveTag book_id title author
    else Except.error "Book not found."
  run_record_outcome p sc f book_id raw_title raw_author outcome s1

/-- The per-record loop of run_metadata_job plus the completion write: i is
the index of the next record (feeding the cancellation observation), p, sc
and f the local processed/succeeded/failed counters. -/
def run_loop (env : RunEnv) : Nat → Nat → Nat → Nat → List BookRow → RunState → RunState
  | _, _, _, _, [], s =>
    updateJob s (fun j => { j with
      status := "completed", finished_at := some (), current_book_id := none })
  | i, p, sc, f, row :: rest, s =>
    if env.cancelledBefore i then
      updateJob s (fun j => { j with
        status := "cancelled", finished_at := some (), current_book_id := none })
    else
      let r := run_record env p sc f row s
      run_loop env (i + 1) (p + 1) r.2.1 r.2.2 rest r.1

/-- run_metadata_job from app/services/metadata_jobs.py, for an existing job
row (the job-is-None early return is outside the model) in the absence of a
job-level fatal error (the outer except clause). -/
def run_metadata_job (env : RunEnv) (initial : JobState) : RunState :=
  let s0 : RunState := ⟨initial, [], [], [], []⟩
  if initial.status = "cancelled" then
    updateJob s0 (fun j => { j with finished_at := some () })
  else
    let s1 := updateJob s0 (fun j => { j with status := "running", started_at := some () })
    let total_books := env.rows.length
    let s2 :=
      if total_books ≠ initial.total_books then
        updateJob s1 (fun j => { j with total_books := total_books })
      else s1
    run_loop env 0 0 0 0 env.rows s2

lemma run_record_outcome_spec (p sc f book_id : Nat) (raw_title raw_author : String)
    (outcome : Except String ProcessResult) (t : RunState) :
    ∃ (sc' f' : Nat) (L : Option String) (ev : EventRecord)
      (u : List JobState) (w : List CatalogWrite),
      (run_record_outcome p sc f book_id raw_title raw_author outcome t).2.1 = sc' ∧
      (run_record_outcome p sc f book_id raw_title raw_author outcome t).2.2 = f' ∧
      sc' + f' = sc + f + 1 ∧ sc ≤ sc' ∧ f ≤ f' ∧
      (run_record_outcome p sc f book_id raw_title raw_author outcome t).1.job =
        { t.job with
            last_error := L
            processed_books := p + 1
            succeeded_books := sc'
            failed_books := f' } ∧
      (run_record_outcome p sc f book_id raw_title raw_author outcome t).1.jobLog =
        t.jobLog ++ u ∧
      (∀ x ∈ u, x.total_books = t.job.total_books ∧
        ((x.processed_books = t.job.processed_books ∧
          x.succeeded_books = t.job.succeeded_books ∧
          x.failed_books = t.job.failed_books) ∨
         (x.processed_books = p + 1 ∧ x.succeeded_books = sc' ∧ x.failed_books = f'))) ∧
      (run_record_outcome p sc f book_id raw_title raw_author outcome t).1.events =
        t.events ++ [ev] ∧
      (run_record_outcome p sc f book_id raw_title raw_author outcome t).1.writes =
        t.writes ++ w ∧
      (run_record_outcome p sc f book_id raw_title raw_author outcome t).1.attempted =
        t.attempted := by
  cases outcome with
  | ok pr =>
    by_cases hok : pr.ok
    · have hres : run_record_outcome p sc f book_id raw_title raw_author (Except.ok pr) t =
          ({ job := { t.job with
                 processed_books := p + 1
                 succeeded_books := sc + 1
                 failed_books := f }
             jobLog := t.jobLog ++ [{ t.job with
                 processed_books := p + 1
                 succeeded_books := sc + 1
                 failed_books := f }]
             events := t.events ++
               [⟨"book_completed", book_id, raw_title, raw_author, none, p + 1, sc + 1, f⟩]
             writes := t.writes ++ pr.writes
             attempted := t.attempted }, sc + 1, f) := by
        simp [run_record_outcome, hok, updateJob]
      refine ⟨sc + 1, f, t.job.last_error,
        ⟨"book_completed", book_id, raw_title, raw_author, none, p + 1, sc + 1, f⟩,
        [{ t.job with
             processed_books := p + 1
             succeeded_books := sc + 1
             failed_books := f }],
        pr.writes,
        by rw [hres], by rw [hres], by omega, by omega, le_refl f,
        by rw [hres], by rw [hres], ?_, by rw [hres], by rw [hres], by rw [hres]⟩
      intro x hx
      rcases List.mem_cons.mp hx with rfl | hx'
      · exact ⟨rfl, Or.inr ⟨rfl, rfl, rfl⟩⟩
      · exact absurd hx' (List.not_mem_nil x)
    · have hres : run_record_outcome p sc f book_id raw_title raw_author (Except.ok pr) t =
          ({ job := { t.job with
                 last_error := pr.error_message
                 processed_books := p + 1
                 succeeded_books := sc
                 failed_books := f + 1 }
             jobLog := t.jobLog ++
               [{ t.job with last_error := pr.error_message },
                { t.job with
                    last_error := pr.error_message
                    processed_books := p + 1
                    succeeded_books := sc
                    failed_books := f + 1 }]
             events := t.events ++
               [⟨"book_failed", book_id, raw_title, raw_author, pr.error_message, p + 1, sc, f + 1⟩]
             writes := t.writes ++ pr.writes
             attempted := t.attempted }, sc, f + 1) := by
        simp [run_record_outcome, hok, updateJob]
      refine ⟨sc, f + 1, pr.error_message,
        ⟨"book_failed", book_id, raw_title, raw_author, pr.error_message, p + 1, sc, f + 1⟩,
        [{ t.job with last_error := pr.error_message },
         { t.job with
             last_error := pr.error_message
             processed_books := p + 1
             succeeded_books := sc
             failed_books := f + 1 }],
        pr.writes,
        by rw [hres], by rw [hres], by omega, le_refl sc, by omega,
        by rw [hres], by rw [hres], ?_, by rw [hres], by rw [hres], by rw [hres]⟩
      intro x hx
      rcases List.mem_cons.mp hx with rfl | hx'
      · exact ⟨rfl, Or.inl ⟨rfl, rfl, rfl⟩⟩
      · rcases List.mem_cons.mp hx' with rfl | hx''
        · exact ⟨rfl, Or.inr ⟨rfl, rfl, rfl⟩⟩
        · exact absurd hx'' (List.not_mem_nil x)
  | error exc =>
    have hres : run_record_outcome p sc f book_id raw_title raw_author (Except.error exc) t =
        ({ job := { t.job with
               last_error := some exc
               processed_books := p + 1
               succeeded_books := sc
               failed_books := f + 1 }
           jobLog := t.jobLog ++
             [{ t.job with last_error := some exc },
              { t.job with
                  last_error := some exc
                  processed_books := p + 1
                  succeeded_books := sc
                  failed_books := f + 1 }]
           events := t.events ++
             [⟨"book_failed", book_id, raw_title, raw_author, some exc, p + 1, sc, f + 1⟩]
           writes := t.writes
           attempted := t.attempted }, sc, f + 1) := by
      simp [run_record_outcome, updateJob]
    refine ⟨sc, f + 1, some exc,
      ⟨"book_failed", book_id, raw_title, raw_author, some exc, p + 1, sc, f + 1⟩,
      [{ t.job with last_error := some exc },
       { t.job with
           last_error := some exc
           processed_books := p + 1
           succeeded_books := sc
           failed_books := f + 1 }],
      [],
      by rw [hres], by rw [hres], by omega, le_refl sc, by omega,
      by rw [hres], by rw [hres], ?_, by rw [hres], by rw [hres]; simp, by rw [hres]⟩
    intro x hx
    rcases List.mem_cons.mp hx with rfl | hx'
    · exact ⟨rfl, Or.inl ⟨rfl, rfl, rfl⟩⟩
    · rcases List.mem_cons.mp hx' with rfl | hx''
      · exact ⟨rfl, Or.inr ⟨rfl, rfl, rfl⟩⟩
      · exact absurd hx'' (List.not_mem_nil x)

lemma run_record_spec (env : RunEnv) (p sc f : Nat) (row : BookRow) (s : RunState) :
    ∃ (sc' f' : Nat) (L : Option String) (ev : EventRecord)
      (u : List JobState) (w : List CatalogWrite),
      (run_record env p sc f row s).2.1 = sc' ∧
      (run_record env p sc f row s).2.2 = f' ∧
      sc' + f' = sc + f + 1 ∧ sc ≤ sc' ∧ f ≤ f' ∧
      (run_record env p sc f row s).1.job =
        { s.job with
            current_book_id := some row.id
            last_error := L
            processed_books := p + 1
            succeeded_books := sc'
            failed_books := f' } ∧
      (run_record env p sc f row s).1.jobLog = s.jobLog ++ u ∧
      (∀ x ∈ u, x.total_books = s.job.total_books ∧
        ((x.processed_books = s.job.processed_books ∧
          x.succeeded_books = s.job.succeeded_books ∧
          x.failed_books = s.job.failed_books) ∨
         (x.processed_books = p + 1 ∧ x.succeeded_books = sc' ∧ x.failed_books = f'))) ∧
      (run_record env p sc f row s).1.events = s.events ++ [ev] ∧
      (run_record env p sc f row s).1.writes = s.writes ++ w ∧
      (run_record env p sc f row s).1.attempted = s.attempted ++ [row.id] := by
  obtain ⟨sc', f', L, ev, u, w, h1, h2, h3, h4, h5, h6, h7, h8, h9, h10, h11⟩ :=
    run_record_outcome_spec p sc f row.id (pyOr row.title "") (pyOr row.author "")
      (if env.bookExists row.id then
        process_book env.normalize_title env.normalize_author env.provider
          env.inference_configured env.resolveTag row.id
          (pyOr row.normalized_title (pyOr row.title ""))
          (pyOr row.normalized_author (pyOr row.author ""))
      else Except.error "Book not found.")
      { job := { s.job with current_book_id := some row.id }
        jobLog := s.jobLog ++ [{ s.job with current_book_id := some row.id }]
        events := s.events
        writes := s.writes
        attempted := s.attempted ++ [row.id] }
  refine ⟨sc', f', L, ev, { s.job with current_book_id := some row.id } :: u, w,
    h1, h2, h3, h4, h5, h6, ?_, ?_, h9, h10, h11⟩
  · exact h7.trans (by simp)
  · intro x hx
    rcases List.mem_cons.mp hx with rfl | hx'
    · exact ⟨rfl, Or.inl ⟨rfl, rfl, rfl⟩⟩
    · exact h8 x hx'

/-- The counter clause of the job invariant: processed = succeeded + failed
and every counter bounded by total_books. -/
def counters_ok (j : JobState) : Prop :=
  j.processed_books = j.succeeded_books + j.failed_books ∧
  j.processed_books ≤ j.total_books ∧
  j.succeeded_books ≤ j.total_books ∧
  j.failed_books ≤ j.total_books

instance (j : JobState) : Decidable (counters_ok j) := by
  unfold counters_ok
  infer_instance

lemma counters_ok_of_fields {j : JobState} {p sc f : Nat}
    (hp : j.processed_books = p) (hsc : j.succeeded_books = sc)
    (hf : j.failed_books = f) (hsum : p = sc + f)
    (htot : p ≤ j.total_books) : counters_ok j := by
  unfold counters_ok
  omega

lemma run_loop_counters (env : RunEnv) :
    ∀ (rows : List BookRow) (i p sc f : Nat) (s : RunState),
      s.job.processed_books = p → s.job.succeeded_books = sc →
      s.job.failed_books = f → p = sc + f →
      p + rows.length ≤ s.job.total_books →
      (∀ x ∈ s.jobLog, counters_ok x) →
      ∀ x ∈ (run_loop env i p sc f rows s).jobLog, counters_ok x := by
  intro rows
  induction rows with
  | nil =>
    intro i p sc f s hp hsc hf hsum htot hlog x hx
    simp only [run_loop, updateJob] at hx
    rcases List.mem_append.mp hx with hx' | hx'
    · exact hlog x hx'
    · rcases List.mem_singleton.mp hx' with rfl
      have htot' : p ≤ s.job.total_books := by omega
      exact counters_ok_of_fields hp hsc hf hsum htot'
  | cons row rest ih =>
    intro i p sc f s hp hsc hf hsum htot hlog x hx
    by_cases hc : env.cancelledBefore i
    · simp only [run_loop, hc, if_true, updateJob] at hx
      rcases List.mem_append.mp hx with hx' | hx'
      · exact hlog x hx'
      · rcases List.mem_singleton.mp hx' with rfl
        have htot' : p ≤ s.job.total_books := by
          simp only [List.length_cons] at htot
          omega
        exact counters_ok_of_fields hp hsc hf hsum htot'
    · obtain ⟨sc', f', L, ev, u, w, h1, h2, h3, h4, h5, h6, h7, h8, h9, h10, h11⟩ :=
        run_record_spec env p sc f row s
      simp only [run_loop, hc, Bool.false_eq_true, if_false] at hx
      have hlen : p + rest.length + 1 ≤ s.job.total_books := by
        simp only [List.length_cons] at htot
        omega
      have hjob : (run_record env p sc f row s).1.job.processed_books = p + 1 := by
        rw [h6]
      have hjobsc : (run_record env p sc f row s).1.job.succeeded_books = sc' := by
        rw [h6]
      have hjobf : (run_record env p sc f row s).1.job.failed_books = f' := by
        rw [h6]
      have hjobtot : (run_record env p sc f row s).1.job.total_books = s.job.total_books := by
        rw [h6]
      refine ih (i + 1) (p + 1) sc' f' (run_record env p sc f row s).1
        hjob hjobsc hjobf (by omega) (by rw [hjobtot]; omega) ?_ x ?_
      · intro y hy
        rw [h7] at hy
        rcases List.mem_append.mp hy with hy' | hy'
        · exact hlog y hy'
        · obtain ⟨hytot, hcases⟩ := h8 y hy'
          rcases hcases with ⟨hyp, hysc, hyf⟩ | ⟨hyp, hysc, hyf⟩
          · exact counters_ok_of_fields (hyp.trans hp) (hysc.trans hsc) (hyf.trans hf)
              hsum (by rw [hytot]; omega)
          · exact counters_ok_of_fields hyp hysc hyf (by omega) (by rw [hytot]; omega)
      · rw [h1, h2] at hx
        exact hx

/-- C3: with a freshly created job (all counters zero, which is how
create_metadata_job inserts it), every job-row state committed by
run_metadata_job satisfies processed_books = succeeded_books + failed_books
with all three counters at most total_books. -/
theorem run_counter_invariant (env : RunEnv) (initial : JobState)
    (hp0 : initial.processed_books = 0) (hs0 : initial.succeeded_books = 0)
    (hf0 : initial.failed_books = 0) :
    ∀ x ∈ (run_metadata_job env initial).jobLog,
      x.processed_books = x.succeeded_books + x.failed_books ∧
      x.processed_books ≤ x.total_books ∧
      x.succeeded_books ≤ x.total_books ∧
      x.failed_books ≤ x.total_books := by
  intro x hx
  suffices h : counters_ok x from h
  by_cases hcan : initial.status = "cancelled"
  · simp only [run_metadata_job, hcan, if_true, updateJob] at hx
    rcases List.mem_append.mp hx with hx' | hx'
    · exact absurd hx' (List.not_mem_nil x)
    · rcases List.mem_singleton.mp hx' with rfl
      exact counters_ok_of_fields hp0 hs0 hf0 (by omega) (Nat.zero_le _)
  · by_cases hne : env.rows.length ≠ initial.total_books
    · simp only [run_metadata_job, hcan, updateJob] at hx
      rw [if_pos hne] at hx
      refine run_loop_counters env env.rows 0 0 0 0 _ hp0 hs0 hf0 rfl (by simp) ?_ x hx
      intro y hy
      rcases List.mem_append.mp hy with hy' | hy'
      · rcases List.mem_append.mp hy' with hy'' | hy''
        · exact absurd hy'' (List.not_mem_nil y)
        · rcases List.mem_singleton.mp hy'' with rfl
          exact counters_ok_of_fields hp0 hs0 hf0 (by omega) (Nat.zero_le _)
      · rcases List.mem_singleton.mp hy' with rfl
        exact counters_ok_of_fields hp0 hs0 hf0 (by omega) (Nat.zero_le _)
    · simp only [run_metadata_job, hcan, updateJob] at hx
      rw [if_neg hne] at hx
      push_neg at hne
      refine run_loop_counters env env.rows 0 0 0 0 _ hp0 hs0 hf0 rfl
        (by simp [hne]) ?_ x hx
      intro y hy
      rcases List.mem_append.mp hy with hy' | hy'
      · exact absurd hy' (List.not_mem_nil y)
      · rcases List.mem_singleton.mp hy' with rfl
        exact counters_ok_of_fields hp0 hs0 hf0 (by omega) (Nat.zero_le _)

lemma run_loop_log_extends (env : RunEnv) :
    ∀ (rows : List BookRow) (i p sc f : Nat) (s : RunState),
      ∃ t, (run_loop env i p sc f rows s).jobLog = s.jobLog ++ t := by
  intro rows
  induction rows with
  | nil =>
    intro i p sc f s
    refine ⟨[{ s.job with
        status := "completed"
        finished_at := some ()
        current_book_id := none }], ?_⟩
    simp [run_loop, updateJob]
  | cons row rest ih =>
    intro i p sc f s
    by_cases hc : env.cancelledBefore i
    · refine ⟨[{ s.job with
          status := "cancelled"
          finished_at := some ()
          current_book_id := none }], ?_⟩
      simp [run_loop, hc, updateJob]
    · obtain ⟨sc', f', L, ev, u, w, h1, h2, h3, h4, h5, h6, h7, h8, h9, h10, h11⟩ :=
        run_record_spec env p sc f row s
      obtain ⟨t, ht⟩ := ih (i + 1) (p + 1) (run_record env p sc f row s).2.1
        (run_record env p sc f row s).2.2 (run_record env p sc f row s).1
      refine ⟨u ++ t, ?_⟩
      simp only [run_loop, hc, Bool.false_eq_true, if_false]
      rw [ht, h7, List.append_assoc]

/-- C10: when the engine claims a job that is not already cancelled and the
current eligible-record count differs from the stored total_books, the start
transition first commits status=running/started_at (with the stale total)
and then overwrites total_books with the current count — so total_books is
not constant from creation to termination. -/
theorem run_start_overwrites_total (env : RunEnv) (initial : JobState)
    (hstatus : initial.status ≠ "cancelled")
    (hne : env.rows.length ≠ initial.total_books) :
    ∃ rest,
      (run_metadata_job env initial).jobLog =
        { initial with status := "running", started_at := some () } ::
        { initial with
            status := "running"
            started_at := some ()
            total_books := env.rows.length } :: rest ∧
      env.rows.length ≠ initial.total_books := by
  obtain ⟨t, ht⟩ := run_loop_log_extends env env.rows 0 0 0 0
    { job := { initial with
        status := "running"
        started_at := some ()
        total_books := env.rows.length }
      jobLog :=
        [{ initial with status := "running", started_at := some () },
         { initial with
             status := "running"
             started_at := some ()
             total_books := env.rows.length }]
      events := []
      writes := []
      attempted := [] }
  refine ⟨t, ?_, hne⟩
  have hrw : run_metadata_job env initial =
      run_loop env 0 0 0 0 env.rows
        { job := { initial with
            status := "running"
            started_at := some ()
            total_books := env.rows.length }
          jobLog :=
            [{ initial with status := "running", started_at := some () },
             { initial with
                 status := "running"
                 started_at := some ()
                 total_books := env.rows.length }]
          events := []
          writes := []
          attempted := [] } := by
    simp only [run_metadata_job, updateJob]
    rw [if_neg hstatus, if_pos hne]
    rfl
  rw [hrw, ht]
  rfl

lemma run_loop_cancel (env : RunEnv) :
    ∀ (k : Nat) (rows : List BookRow) (i p sc f : Nat) (s : RunState),
      k < rows.length →
      env.cancelledBefore (i + k) = true →
      (∀ j, j < k → env.cancelledBefore (i + j) = false) →
      (run_loop env i p sc f rows s).attempted =
        s.attempted ++ (rows.take k).map BookRow.id ∧
      (run_loop env i p sc f rows s).job.status = "cancelled" ∧
      (run_loop env i p sc f rows s).job.finished_at = some () ∧
      (run_loop env i p sc f rows s).job.current_book_id = none ∧
      (run_loop env i p sc f rows s).events.length = s.events.length + k := by
  intro k
  induction k with
  | zero =>
    intro rows i p sc f s hk hcancel hfirst
    cases rows with
    | nil => exact absurd hk (by simp)
    | cons row rest =>
      have hc : env.cancelledBefore i = true := by simpa using hcancel
      have hbr : run_loop env i p sc f (row :: rest) s =
          updateJob s (fun j => { j with
            status := "cancelled"
            finished_at := some ()
            current_book_id := none }) := by
        simp only [run_loop, hc, if_true]
      rw [hbr]
      exact ⟨by simp [updateJob], rfl, rfl, rfl, by simp [updateJob]⟩
  | succ k ih =>
    intro rows i p sc f s hk hcancel hfirst
    cases rows with
    | nil => exact absurd hk (by simp)
    | cons row rest =>
      have hc : env.cancelledBefore i = false := by
        have := hfirst 0 (Nat.succ_pos k)
        simpa using this
      obtain ⟨sc', f', L, ev, u, w, h1, h2, h3, h4, h5, h6, h7, h8, h9, h10, h11⟩ :=
        run_record_spec env p sc f row s
      have hk' : k < rest.length := by simpa using hk
      have hcancel' : env.cancelledBefore ((i + 1) + k) = true := by
        have harith : (i + 1) + k = i + (k + 1) := by omega
        rw [harith]
        exact hcancel
      have hfirst' : ∀ j, j < k → env.cancelledBefore ((i + 1) + j) = false := by
        intro j hj
        have harith : (i + 1) + j = i + (j + 1) := by omega
        rw [harith]
        exact hfirst (j + 1) (by omega)
      obtain ⟨ha, hst, hfin, hcb, he⟩ :=
        ih rest (i + 1) (p + 1) (run_record env p sc f row s).2.1
          (run_record env p sc f row s).2.2 (run_record env p sc f row s).1 hk' hcancel' hfirst'
      have hbr : run_loop env i p sc f (row :: rest) s =
          run_loop env (i + 1) (p + 1) (run_record env p sc f row s).2.1
            (run_record env p sc f row s).2.2 rest (run_record env p sc f row s).1 := by
        simp only [run_loop, hc, Bool.false_eq_true, if_false]
      rw [hbr]
      refine ⟨?_, hst, hfin, hcb, ?_⟩
      · rw [ha, h11]
        simp
      · rw [he, h9]
        simp only [List.length_append, List.length_cons, List.length_nil]
        omega

/-- C8: a job observed cancelled before record number k is stopped at that
boundary: exactly the first k records have current_book_id assigned (no
record not yet started is ever processed), the run emits exactly k
per-record events, and the final job row keeps status cancelled with
finished_at set and current_book_id cleared; the last current_book_id
assigned is the id of the last record actually attempted. -/
theorem run_cancelled_stops (env : RunEnv) (initial : JobState) (k : Nat)
    (hstatus : initial.status ≠ "cancelled")
    (hk : k < env.rows.length)
    (hcancel : env.cancelledBefore k = true)
    (hfirst : ∀ j, j < k → env.cancelledBefore j = false) :
    (run_metadata_job env initial).attempted = (env.rows.take k).map BookRow.id ∧
    (run_metadata_job env initial).job.status = "cancelled" ∧
    (run_metadata_job env initial).job.finished_at = some () ∧
    (run_metadata_job env initial).job.current_book_id = none ∧
    (run_metadata_job env initial).events.length = k ∧
    (run_metadata_job env initial).attempted.getLast? =
      ((env.rows.take k).map BookRow.id).getLast? := by
  have hcancel0 : env.cancelledBefore (0 + k) = true := by
    rwa [Nat.zero_add]
  have hfirst0 : ∀ j, j < k → env.cancelledBefore (0 + j) = false := by
    intro j hj
    rw [Nat.zero_add]
    exact hfirst j hj
  by_cases hne : env.rows.length ≠ initial.total_books
  · have hrw : run_metadata_job env initial =
        run_loop env 0 0 0 0 env.rows
          { job := { initial with
              status := "running"
              started_at := some ()
              total_books := env.rows.length }
            jobLog :=
              [{ initial with status := "running", started_at := some () },
               { initial with
                   status := "running"
                   started_at := some ()
                   total_books := env.rows.length }]
            events := []
            writes := []
            attempted := [] } := by
      simp only [run_metadata_job, updateJob]
      rw [if_neg hstatus, if_pos hne]
      rfl
    obtain ⟨ha, hst, hfin, hcb, he⟩ :=
      run_loop_cancel env k env.rows 0 0 0 0
        { job := { initial with
            status := "running"
            started_at := some ()
            total_books := env.rows.length }
          jobLog :=
            [{ initial with status := "running", started_at := some () },
             { initial with
                 status := "running"
                 started_at := some ()
                 total_books := env.rows.length }]
          events := []
          writes := []
          attempted := [] } hk hcancel0 hfirst0
    rw [hrw]
    refine ⟨?_, hst, hfin, hcb, by rw [he]; simp, ?_⟩
    · rw [ha]
      simp
    · rw [ha]
      simp
  · have hrw : run_metadata_job env initial =
        run_loop env 0 0 0 0 env.rows
          { job := { initial with status := "running", started_at := some () }
            jobLog := [{ initial with status := "running", started_at := some () }]
            events := []
            writes := []
            attempted := [] } := by
      simp only [run_metadata_job, updateJob]
      rw [if_neg hstatus, if_neg hne]
      rfl
    obtain ⟨ha, hst, hfin, hcb, he⟩ :=
      run_loop_cancel env k env.rows 0 0 0 0
        { job := { initial with status := "running", started_at := some () }
          jobLog := [{ initial with status := "running", started_at := some () }]
          events := []
          writes := []
          attempted := [] } hk hcancel0 hfirst0
    rw [hrw]
    refine ⟨?_, hst, hfin, hcb, by rw [he]; simp, ?_⟩
    · rw [ha]
      simp
    · rw [ha]
      simp

/-- C6 amended: a record whose provider search returns an empty candidate
list increments failed by exactly 1 and leaves succeeded unchanged, performs
no catalog mutation, and emits exactly one book_failed event whose error is
the string "No metadata results." (the source string carries a trailing
period), with last_error set to the same string. -/
theorem record_no_results (env : RunEnv) (p sc f : Nat) (row : BookRow) (s : RunState)
    (hexists : env.bookExists row.id = true)
    (hsearch : env.provider.search
        (pyOr row.normalized_author (pyOr row.author ""))
        (pyOr row.normalized_title (pyOr row.title "")) = Except.ok []) :
    (run_record env p sc f row s).2.1 = sc ∧
    (run_record env p sc f row s).2.2 = f + 1 ∧
    (run_record env p sc f row s).1.writes = s.writes ∧
    (run_record env p sc f row s).1.events = s.events ++
      [⟨"book_failed", row.id, pyOr row.title "", pyOr row.author "",
        some "No metadata results.", p + 1, sc, f + 1⟩] ∧
    (run_record env p sc f row s).1.job =
      { s.job with
          current_book_id := some row.id
          last_error := some "No metadata results."
          processed_books := p + 1
          succeeded_books := sc
          failed_books := f + 1 } := by
  have hpb : process_book env.normalize_title env.normalize_author env.provider
      env.inference_configured env.resolveTag row.id
      (pyOr row.normalized_title (pyOr row.title ""))
      (pyOr row.normalized_author (pyOr row.author "")) =
      Except.ok ⟨false, some "No metadata results.", none, []⟩ := by
    unfold process_book
    rw [hsearch]
    rfl
  have hrr : run_record env p sc f row s =
      run_record_outcome p sc f row.id (pyOr row.title "") (pyOr row.author "")
        (Except.ok ⟨false, some "No metadata results.", none, []⟩)
        { job := { s.job with current_book_id := some row.id }
          jobLog := s.jobLog ++ [{ s.job with current_book_id := some row.id }]
          events := s.events
          writes := s.writes
          attempted := s.attempted ++ [row.id] } := by
    simp only [run_record, hexists, if_true, hpb]
    rfl
  rw [hrr]
  refine ⟨rfl, rfl, by simp [run_record_outcome, updateJob], ?_, ?_⟩
  · simp [run_record_outcome, updateJob]
  · simp [run_record_outcome, updateJob]

/-- A provider whose search always returns no candidates (the AI methods are
never reached in that path). -/
def noResultsProvider : Provider where
  search := fun _ _ => Except.ok []
  get_tags := fun _ => Except.ok []
  get_tag_inference_fields := []
  clean_description := fun _ => Except.error "llm unavailable"
  tag_inference_split := fun _ => Except.error "llm unavailable"
  tag_inference_field := fun _ _ _ => Except.error "llm unavailable"

/-- A one-record run whose search yields no candidates. -/
def noResultsEnv : RunEnv where
  normalize_title := fun x => x
  normalize_author := fun x => x
  inference_configured := none
  provider := noResultsProvider
  resolveTag := fun _ => none
  rows := [⟨7, some "Dune", some "Frank Herbert", none, none⟩]
  bookExists := fun _ => true
  cancelledBefore := fun _ => false

/-- The freshly created queued job for the no-candidate scenario. -/
def noResultsJob : JobState :=
  ⟨"queued", 1, 0, 0, 0, none, none, some (), none, none, none⟩

/-- C6 counterexample: the single book_failed event emitted for a record
with an empty candidate list carries the error string
"No metadata results." — not the exact string "No metadata results" stated
by the claim. -/
theorem no_results_error_string_differs :
    ((run_metadata_job noResultsEnv noResultsJob).events.map EventRecord.error) =
      [some "No metadata results."] ∧
    (((run_metadata_job noResultsEnv noResultsJob).events.map EventRecord.error) =
      [some "No metadata results"] → False) := by
  refine ⟨by decide, ?_⟩
  intro h
  have h1 : ((run_metadata_job noResultsEnv noResultsJob).events.map EventRecord.error) =
      [some "No metadata results."] := by decide
  rw [h1] at h
  exact absurd h (by decide)

/-- Witness for record_no_results at the concrete no-candidate run. -/
theorem record_no_results_witness :
    noResultsEnv.bookExists 7 = true ∧
    noResultsEnv.provider.search (pyOr none (pyOr (some "Frank Herbert") ""))
      (pyOr none (pyOr (some "Dune") "")) = Except.ok [] ∧
    (run_record noResultsEnv 0 0 0 ⟨7, some "Dune", some "Frank Herbert", none, none⟩
      ⟨noResultsJob, [], [], [], []⟩).2.2 = 0 + 1 :=
  ⟨rfl, rfl,
    (record_no_results noResultsEnv 0 0 0 ⟨7, some "Dune", some "Frank Herbert", none, none⟩
      ⟨noResultsJob, [], [], [], []⟩ rfl rfl).2.1⟩

/-- The row create_metadata_job inserts for a given total. The metadata_jobs
table definition is not under src/ (init_db in app/db.py does not create
it); Modelled from the spec: a newly created Job starts queued with zero
counters and null current record, error and terminal timestamps. -/
def newQueuedJob (total_books : Nat) : JobState :=
  ⟨"queued", total_books, 0, 0, 0, none, none, some (), none, none, none⟩

/-- fetch_active_metadata_job from app/services/metadata_jobs.py: the most
recently created job whose status is queued or running. The job list is in
creation order, so ORDER BY created_at DESC LIMIT 1 is the last match. -/
def fetch_active_metadata_job (jobs : List JobState) : Option JobState :=
  (jobs.filter (fun j => j.status = "queued" ∨ j.status = "running")).getLast?

/-- The HTTP-visible outcome of batch_metadata_job_start: 409 conflict,
500 on enqueue failure, or the created-job response. -/
inductive StartResult where
  | conflict
  | enqueue_failed (job_id : Nat)
  | started (job_id : Nat) (total_books : Nat)
deriving Repr, DecidableEq

/-- batch_metadata_job_start from app/routes/batch_actions.py: refuse with a
conflict when a queued/running job exists (no insert); otherwise insert a
queued job (create_metadata_job) whose total_books is the number of rows
fetch_books_for_metadata returns (the whole catalog), then enqueue the
worker; an enqueue exception marks the fresh job failed. Job ids are the
insertion indices (lastrowid); log_activity writes are not modeled. -/
def batch_metadata_job_start (jobs : List JobState) (books : List BookRow)
    (enqueueError : Option String) : StartResult × List JobState :=
  match fetch_active_metadata_job jobs with
  | some _ => (StartResult.conflict, jobs)
  | none =>
    match enqueueError with
    | none => (StartResult.started jobs.length books.length, jobs ++ [newQueuedJob books.length])
    | some exc =>
      (StartResult.enqueue_failed jobs.length,
       jobs ++ [{ newQueuedJob books.length with
          status := "failed"
          finished_at := some ()
          last_error := some exc }])

/-- C7: job creation is single-flight: while any job is queued or running a
creation request returns the conflict result and leaves the job table
unchanged; with no active job (and a healthy queue) it appends exactly one
job, queued, with total_books equal to the number of catalog records
eligible for enrichment. -/
theorem job_start_single_flight (jobs : List JobState) (books : List BookRow)
    (enqueueError : Option String) :
    ((∃ j ∈ jobs, j.status = "queued" ∨ j.status = "running") →
      batch_metadata_job_start jobs books enqueueError = (StartResult.conflict, jobs)) ∧
    ((∀ j ∈ jobs, ¬(j.status = "queued" ∨ j.status = "running")) → enqueueError = none →
      batch_metadata_job_start jobs books enqueueError =
        (StartResult.started jobs.length books.length,
         jobs ++ [newQueuedJob books.length])) := by
  constructor
  · rintro ⟨j, hj, hstat⟩
    have hmem : j ∈ jobs.filter (fun j => j.status = "queued" ∨ j.status = "running") := by
      rw [List.mem_filter]
      exact ⟨hj, by simpa using hstat⟩
    have hne : jobs.filter (fun j => j.status = "queued" ∨ j.status = "running") ≠ [] :=
      List.ne_nil_of_mem hmem
    obtain ⟨x, hx⟩ := Option.isSome_iff_exists.mp (List.getLast?_isSome.mpr hne)
    unfold batch_metadata_job_start fetch_active_metadata_job
    rw [hx]
  · intro hnone henq
    have hfil : jobs.filter (fun j => j.status = "queued" ∨ j.status = "running") = [] := by
      rw [List.filter_eq_nil_iff]
      intro j hj
      simpa using hnone j hj
    unfold batch_metadata_job_start fetch_active_metadata_job
    rw [hfil, henq]
    rfl

/-- Witness for job_start_single_flight: with one queued job present,
creation conflicts and inserts nothing. -/
theorem job_start_single_flight_witness :
    (∃ j ∈ [newQueuedJob 5], j.status = "queued" ∨ j.status = "running") ∧
    batch_metadata_job_start [newQueuedJob 5] [] none =
      (StartResult.conflict, [newQueuedJob 5]) :=
  ⟨⟨newQueuedJob 5, by simp, Or.inl rfl⟩,
   (job_start_single_flight [newQueuedJob 5] [] none).1
     ⟨newQueuedJob 5, by simp, Or.inl rfl⟩⟩

/-- A metadata_job_events row as read by fetch_metadata_job_events. The
table definition is not under src/; Modelled from the spec: ids are
store-assigned, strictly increasing with insertion order (append-only) —
the Pairwise hypothesis of the theorems. The JSON payload round-trip is
kept as the raw text. -/
structure EventRow where
  id : Nat
  job_id : Nat
  event_type : String
  payload : String
  created_at : Option Unit
deriving Repr, DecidableEq

/-- Insertion step of the ORDER BY id sort. -/
def insertById (e : EventRow) : List EventRow → List EventRow
  | [] => [e]
  | x :: xs => if e.id ≤ x.id then e :: x :: xs else x :: insertById e xs

/-- The SQL ORDER BY id, as an insertion sort. -/
def sortById : List EventRow → List EventRow
  | [] => []
  | x :: xs => insertById x (sortById xs)

/-- fetch_metadata_job_events from app/services/metadata_jobs.py: the rows
of the given job with id strictly greater than the cursor, ordered by id. -/
def fetch_metadata_job_events (store : List EventRow) (job_id after_id : Nat) :
    List EventRow :=
  sortById (store.filter (fun row => row.job_id = job_id ∧ after_id < row.id))

lemma insertById_eq_cons (e : EventRow) (l : List EventRow)
    (h : ∀ y ∈ l, e.id ≤ y.id) : insertById e l = e :: l := by
  cases l with
  | nil => rfl
  | cons x xs =>
    unfold insertById
    rw [if_pos (h x (List.mem_cons_self x xs))]

lemma sortById_eq_self (l : List EventRow)
    (h : l.Pairwise (fun a b => a.id ≤ b.id)) : sortById l = l := by
  induction l with
  | nil => rfl
  | cons x xs ih =>
    rcases List.pairwise_cons.mp h with ⟨hx, hxs⟩
    unfold sortById
    rw [ih hxs]
    exact insertById_eq_cons x xs hx

/-- C9: under the append-only store invariant (event ids strictly increase
with insertion order), fetching the events of a job after cursor k returns
exactly the stored events of that job with id greater than k, in strictly
ascending id order — a subscriber resuming from cursor k sees every such
event. -/
theorem fetch_events_cursor (store : List EventRow) (jid k : Nat)
    (hmono : store.Pairwise (fun a b => a.id < b.id)) :
    (∀ e, e ∈ fetch_metadata_job_events store jid k ↔
      (e ∈ store ∧ e.job_id = jid ∧ k < e.id)) ∧
    (fetch_metadata_job_events store jid k).Pairwise (fun a b => a.id < b.id) := by
  have hsub : (store.filter (fun row => row.job_id = jid ∧ k < row.id)).Sublist store :=
    List.filter_sublist store
  have hpair : (store.filter (fun row => row.job_id = jid ∧ k < row.id)).Pairwise
      (fun a b => a.id < b.id) := hmono.sublist hsub
  have hsort : fetch_metadata_job_events store jid k =
      store.filter (fun row => row.job_id = jid ∧ k < row.id) := by
    unfold fetch_metadata_job_events
    exact sortById_eq_self _ (hpair.imp (fun h => le_of_lt h))
  constructor
  · intro e
    rw [hsort, List.mem_filter]
    simp
  · rw [hsort]
    exact hpair

/-- A concrete three-event store for two jobs. -/
def sampleStore : List EventRow :=
  [⟨1, 1, "book_completed", "", some ()⟩,
   ⟨2, 2, "book_failed", "", some ()⟩,
   ⟨3, 1, "book_failed", "", some ()⟩]

/-- Witness for fetch_events_cursor at the concrete store, job 1,
cursor 1. -/
theorem fetch_events_cursor_witness :
    sampleStore.Pairwise (fun a b => a.id < b.id) ∧
    (fetch_metadata_job_events sampleStore 1 1).Pairwise (fun a b => a.id < b.id) :=
  ⟨by decide, (fetch_events_cursor sampleStore 1 1 (by decide)).2⟩

/-- Witness for run_counter_invariant on the concrete one-record run. -/
theorem run_counter_invariant_witness :
    noResultsJob.processed_books = 0 ∧ noResultsJob.succeeded_books = 0 ∧
    noResultsJob.failed_books = 0 ∧
    (∀ x ∈ (run_metadata_job noResultsEnv noResultsJob).jobLog,
      x.processed_books = x.succeeded_books + x.failed_books ∧
      x.processed_books ≤ x.total_books ∧
      x.succeeded_books ≤ x.total_books ∧
      x.failed_books ≤ x.total_books) :=
  ⟨rfl, rfl, rfl, run_counter_invariant noResultsEnv noResultsJob rfl rfl rfl⟩

/-- A two-record run whose job is observed cancelled before the second
record. -/
def cancelEnv : RunEnv where
  normalize_title := fun x => x
  normalize_author := fun x => x
  inference_configured := none
  provider := noResultsProvider
  resolveTag := fun _ => none
  rows := [⟨1, some "A", none, none, none⟩, ⟨2, some "B", none, none, none⟩]
  bookExists := fun _ => true
  cancelledBefore := fun i => i == 1

/-- Witness for run_cancelled_stops: cancellation observed before record 1
stops the two-record run after attempting only the first record. -/
theorem run_cancelled_stops_witness :
    noResultsJob.status ≠ "cancelled" ∧ 1 < cancelEnv.rows.length ∧
    cancelEnv.cancelledBefore 1 = true ∧
    (∀ j, j < 1 → cancelEnv.cancelledBefore j = false) ∧
    (run_metadata_job cancelEnv noResultsJob).attempted =
      (cancelEnv.rows.take 1).map BookRow.id :=
  ⟨by decide, by decide, rfl, by decide,
   (run_cancelled_stops cancelEnv noResultsJob 1 (by decide) (by decide) rfl (by decide)).1⟩

/-- Witness for run_start_overwrites_total: the stored total 1 differs from
the current two-row count, so the start transition overwrites it. -/
theorem run_start_overwrites_total_witness :
    noResultsJob.status ≠ "cancelled" ∧
    cancelEnv.rows.length ≠ noResultsJob.total_books ∧
    (∃ rest,
      (run_metadata_job cancelEnv noResultsJob).jobLog =
        { noResultsJob with status := "running", started_at := some () } ::
        { noResultsJob with
            status := "running"
            started_at := some ()
            total_books := cancelEnv.rows.length } :: rest ∧
      cancelEnv.rows.length ≠ noResultsJob.total_books) :=
  ⟨by decide, by decide,
   run_start_overwrites_total cancelEnv noResultsJob (by decide) (by decide)⟩

/-- Witness for confidence_score_spec: the falsy-description clause applied
at an absent description. -/
theorem confidence_score_spec_witness : desc_score none = 0 :=
  ((confidence_score_spec (fun x => x) (fun x => x)
    none none none none none).2.2.2.2.2.1) (Or.inl rfl)

end LocalLibrary
